import Mathlib

/-!
Verification development for the devcontext repository
(session/project lifecycle engine).

The Python source is shallowly embedded: pure functions become Lean
functions, the SQLite store becomes an explicit record of tables with
append/update operations, timestamps become natural numbers, external
calls (the git library, the generative backend) become explicit inputs.
-/

namespace DevContext

/-! ### String helpers mirroring Python primitives

Python string operations are modelled over the character list of the
Lean string, so that everything reduces in the kernel.  Python
whitespace stripping and lowercasing are modelled for the ASCII range.
-/

/-- Characters removed by the Python str.strip() call (ASCII whitespace). -/
def isPySpace (c : Char) : Bool :=
  c == ' ' || c == '\t' || c == '\n' || c == '\r' || c == '\x0b' || c == '\x0c'

/-- Model of the Python str.strip() call: drop leading and trailing whitespace. -/
def pyStrip (s : String) : String :=
  ⟨((s.data.dropWhile isPySpace).reverse.dropWhile isPySpace).reverse⟩

/-- Model of the Python slice s[:n] (take the first n characters). -/
def pyTake (n : Nat) (s : String) : String := ⟨s.data.take n⟩

/-- Model of the Python str.lower() call (ASCII lowercasing). -/
def lowerStr (s : String) : String := ⟨s.data.map Char.toLower⟩

/-- Whether the pattern starts the given character list. -/
def leadsWith : List Char → List Char → Bool
  | [], _ => true
  | _ :: _, [] => false
  | p :: ps, c :: cs => p == c && leadsWith ps cs

/-- Whether the pattern occurs somewhere in the character list. -/
def hasSubList (pat : List Char) : List Char → Bool
  | [] => pat.isEmpty
  | c :: cs => leadsWith pat (c :: cs) || hasSubList pat cs

/-- Model of the Python substring test: pat in s. -/
def strHasSub (s pat : String) : Bool := hasSubList pat.data s.data

/-- Model of the Python sep.join(parts) call. -/
def joinSep (sep : String) : List String → String
  | [] => ""
  | [x] => x
  | x :: y :: xs => x ++ sep ++ joinSep sep (y :: xs)

/-- Model of the Python "".join(parts) call. -/
def pyConcat : List String → String
  | [] => ""
  | x :: xs => x ++ pyConcat xs

/-- The text of the first line of a string (characters before the first
newline), modelling message.split with a newline separator, index 0. -/
def firstLine (s : String) : String := ⟨s.data.takeWhile (fun c => c != '\n')⟩

/-! ### Git capture (capture/git_capture.py)

A commit as read from the repository history.  The authored timestamp is
a natural number (isoformat timestamps are order-isomorphic to their
instants); the files-changed count stands for the length of
commit.stats.files.
-/

structure Commit where
  sha : String
  message : String
  author : String
  date : Nat
  files_changed : Nat
deriving DecidableEq, Repr

/-- The record built for each commit in GitCapture.get_recent_commits:
7-character hash, first line of the stripped message, author, timestamp,
changed-file count. -/
structure CommitRec where
  sha : String
  message : String
  author : String
  date : Nat
  files_changed : Nat
deriving DecidableEq, Repr

/-- Builds the per-commit record of GitCapture.get_recent_commits. -/
def commitRec (c : Commit) : CommitRec :=
  { sha := pyTake 7 c.sha
    message := firstLine (pyStrip c.message)
    author := c.author
    date := c.date
    files_changed := c.files_changed }

/-- Iteration loop of GitCapture.get_recent_commits.  Each history entry
is a read outcome: ok with a commit, or error when reading raises.  On an
error the accumulated records are returned (the except clause swallows
the exception); with a since bound, iteration breaks as soon as a commit
is authored strictly before the bound. -/
def grcLoop (since : Option Nat) : List (Except Unit Commit) → List CommitRec
  | [] => []
  | Except.error _ :: _ => []
  | Except.ok c :: rest =>
    match since with
    | some s => if c.date < s then [] else commitRec c :: grcLoop since rest
    | none => commitRec c :: grcLoop since rest

/-- GitCapture.get_recent_commits: iterate the history newest-first, at
most limit entries (max_count), breaking early at the since bound and at
the first read error. -/
def get_recent_commits (reads : List (Except Unit Commit)) (limit : Nat)
    (since : Option Nat) : List CommitRec :=
  grcLoop since (reads.take limit)

/-- The GitContext dataclass of capture/git_capture.py. -/
structure GitContext where
  branch : String
  recent_commits : List CommitRec
  modified_files : List String
  staged_files : List String
  untracked_files : List String
  has_uncommitted_changes : Bool
deriving DecidableEq, Repr

/-- The lines list built by GitContext.to_summary before joining. -/
def toSummaryLines (g : GitContext) : List String :=
  ["Branch: " ++ g.branch]
    ++ (if g.recent_commits.isEmpty then [] else
          ("\nRecent commits (" ++ toString g.recent_commits.length ++ "):")
            :: (g.recent_commits.take 5).map (fun c => "  - " ++ pyTake 60 c.message))
    ++ (if g.modified_files.isEmpty then [] else
          ("\nModified files (" ++ toString g.modified_files.length ++ "):")
            :: (g.modified_files.take 10).map (fun f => "  - " ++ f)
            ++ (if g.modified_files.length > 10 then
                  ["  ... and " ++ toString (g.modified_files.length - 10) ++ " more"]
                else []))
    ++ (if g.staged_files.isEmpty then [] else
          ("\nStaged files (" ++ toString g.staged_files.length ++ "):")
            :: (g.staged_files.take 5).map (fun f => "  - " ++ f))
    ++ (if g.has_uncommitted_changes then ["\n⚠️  Uncommitted changes present"] else [])

/-- GitContext.to_summary: the human-readable summary form. -/
def toSummary (g : GitContext) : String := joinSep "\n" (toSummaryLines g)

/-- A JSON value, the structured form produced by json.dumps in
GitContext.to_json (serialization to the concrete byte string is the
standard library encoder and is kept at the tree level here). -/
inductive JVal where
  | jstr (s : String)
  | jnum (n : Nat)
  | jbool (b : Bool)
  | jarr (xs : List JVal)
  | jobj (fields : List (String × JVal))

/-- The JSON object for one commit record. -/
def commitRecJson (r : CommitRec) : JVal :=
  JVal.jobj
    [("sha", JVal.jstr r.sha), ("message", JVal.jstr r.message),
     ("author", JVal.jstr r.author), ("date", JVal.jnum r.date),
     ("files_changed", JVal.jnum r.files_changed)]

/-- GitContext.to_json: the structured serialization, key by key in
source order. -/
def toJsonAst (g : GitContext) : JVal :=
  JVal.jobj
    [("branch", JVal.jstr g.branch),
     ("recent_commits", JVal.jarr (g.recent_commits.map commitRecJson)),
     ("modified_files", JVal.jarr (g.modified_files.map JVal.jstr)),
     ("staged_files", JVal.jarr (g.staged_files.map JVal.jstr)),
     ("untracked_files", JVal.jarr (g.untracked_files.map JVal.jstr)),
     ("has_uncommitted_changes", JVal.jbool g.has_uncommitted_changes)]

/-- Field access on a JSON object. -/
def jsonLookup (j : JVal) (key : String) : Option JVal :=
  match j with
  | JVal.jobj fields => (fields.find? (fun kv => kv.1 == key)).map (fun kv => kv.2)
  | _ => none

/-- The dirty check behind GitCapture.has_uncommitted_changes.  The
source delegates to the external git library
(repo.is_dirty with untracked files counted), which is outside this
repository; its result is modelled from the spec: true iff any of
modified, staged, untracked is non-empty. -/
def isDirtySpec (modified staged untracked : List String) : Bool :=
  !(modified.isEmpty && staged.isEmpty && untracked.isEmpty)

/-- GitCapture.capture: none when the path is not a git repository,
otherwise the snapshot assembled from the reader outputs, with the
commit list read through get_recent_commits. -/
def captureCtx (isRepo : Bool) (branch : String)
    (reads : List (Except Unit Commit)) (limit : Nat)
    (modified staged untracked : List String) (since : Option Nat) :
    Option GitContext :=
  if isRepo then
    some
      { branch := branch
        recent_commits := get_recent_commits reads limit since
        modified_files := modified
        staged_files := staged
        untracked_files := untracked
        has_uncommitted_changes := isDirtySpec modified staged untracked }
  else none

/-! ### Summarizer (summary/ollama.py) -/

/-- OllamaSummarizer build of the prompt for the generative backend. -/
def build_prompt (git_context : String) (notes : List String)
    (captures : List String) (project_name : String) : String :=
  let sections :=
    ["Project: " ++ project_name ++ "\n"]
      ++ (if git_context == "" then [] else ["Git Activity:\n" ++ git_context ++ "\n"])
      ++ (if notes.isEmpty then [] else
            ["Developer Notes:\n" ++ joinSep "\n" (notes.map (fun n => "- " ++ n)) ++ "\n"])
      ++ (if captures.isEmpty then [] else
            ["Activity Log:\n" ++ joinSep "\n" (captures.take 20) ++ "\n"])
  let context := joinSep "\n" sections
  "You are a helpful assistant that summarizes developer work sessions.\n\nGiven the following context from a coding session, provide a brief summary that will help the developer quickly resume their work later.\n\nFocus on:\n1. What was being worked on (specific features, bugs, files)\n2. What was accomplished\n3. What is still incomplete or blocked\n4. Suggested next steps\n\nKeep the summary concise (3-5 sentences) and actionable.\n\nContext:\n" ++ context ++ "\n\nSummary:"

/-- The parts list built by the fallback summary of OllamaSummarizer
before joining: header, then the first 3 notes when any, then the git
activity marker when the lowercased git text mentions commits.  The
captures argument is accepted and ignored, as in the source. -/
def fallbackParts (git_context : String) (notes : List String)
    (captures : List String) (project_name : String) : List String :=
  ["Session on " ++ project_name]
    ++ (if notes.isEmpty then [] else ["\nNotes: " ++ joinSep "; " (notes.take 3)])
    ++ (if strHasSub (lowerStr git_context) "commits" then ["\nGit activity recorded."]
        else [])

/-- The fallback summary of OllamaSummarizer (the deterministic
no-backend path). -/
def fallback_summary (git_context : String) (notes : List String)
    (captures : List String) (project_name : String) : String :=
  pyConcat (fallbackParts git_context notes captures project_name)

/-- OllamaSummarizer.summarize_session.  Backend availability is the
is_available() probe; the backend itself is a function from the prompt
to an optional response (none models the exception path). -/
def summarize_session (available : Bool) (backend : String → Option String)
    (git_context : String) (notes : List String) (captures : List String)
    (project_name : String) : String :=
  if available then
    match backend (build_prompt git_context notes captures project_name) with
    | some r => pyStrip r
    | none => fallback_summary git_context notes captures project_name
  else fallback_summary git_context notes captures project_name

/-! ### Data model and store (db/models.py, db/database.py)

Rows carry the schema fields; timestamps are natural numbers.  The store
is a record of the four tables plus the autoincrement counters; a query
without an ORDER BY clause returns rows in insertion (rowid) order, so
tables are kept as append-ordered lists.
-/

/-- A tracked project (projects table row). -/
structure Project where
  id : Nat
  name : String
  path : List String
  created_at : Nat
  last_active : Nat
deriving DecidableEq, Repr

/-- A work session (sessions table row); ended_at and summary are the
nullable columns. -/
structure Session where
  id : Nat
  project_id : Nat
  started_at : Nat
  ended_at : Option Nat
  summary : Option String
deriving DecidableEq, Repr

/-- A context capture (captures table row); the metadata column holds
the structured JSON content. -/
structure Capture where
  id : Nat
  session_id : Nat
  capture_type : String
  content : String
  metadata : JVal
  timestamp : Nat

/-- A note (notes table row). -/
structure Note where
  id : Nat
  session_id : Nat
  content : String
  timestamp : Nat
deriving DecidableEq, Repr

/-- The SQLite store of db/database.py as four append-ordered tables
with autoincrement counters. -/
structure DB where
  projects : List Project
  sessions : List Session
  captures : List Capture
  notes : List Note
  nextSessionId : Nat
  nextCaptureId : Nat
  nextNoteId : Nat

/-- Database.get_project_by_path: first row whose path column matches. -/
def get_project_by_path (projects : List Project) (path : List String) :
    Option Project :=
  projects.find? (fun pr => pr.path == path)

/-- Database.create_session: insert a session with a null ended_at and,
in the same transaction, bump the last_active timestamp of the owning
project.  No check of existing active sessions is performed. -/
def create_session (db : DB) (project_id : Nat) (now : Nat) : DB × Session :=
  let s : Session :=
    { id := db.nextSessionId, project_id := project_id, started_at := now
      ended_at := none, summary := none }
  ({ db with
      sessions := db.sessions ++ [s]
      projects := db.projects.map
        (fun p => if p.id == project_id then { p with last_active := now } else p)
      nextSessionId := db.nextSessionId + 1 }, s)

/-- The WHERE clause of the active-session query: the row belongs to
the project and its ended_at column is null. -/
def activeFor (project_id : Nat) (s : Session) : Bool :=
  s.project_id == project_id && s.ended_at == none

/-- Database.get_active_session: the first session row of the project
whose ended_at column is null. -/
def get_active_session (db : DB) (project_id : Nat) : Option Session :=
  db.sessions.find? (activeFor project_id)

/-- Database.end_session: set ended_at to the current time and summary
to the given value on the session with this id, unconditionally. -/
def end_session (db : DB) (session_id : Nat) (summary : Option String)
    (now : Nat) : DB :=
  { db with
      sessions := db.sessions.map
        (fun s =>
          if s.id == session_id then
            { s with ended_at := some now, summary := summary }
          else s) }

/-- Database.add_capture: append a capture row. -/
def add_capture (db : DB) (session_id : Nat) (capture_type : String)
    (content : String) (metadata : JVal) (now : Nat) : DB × Capture :=
  let c : Capture :=
    { id := db.nextCaptureId, session_id := session_id
      capture_type := capture_type, content := content, metadata := metadata
      timestamp := now }
  ({ db with captures := db.captures ++ [c], nextCaptureId := db.nextCaptureId + 1 }, c)

/-- Database.add_note: append a note row. -/
def add_note (db : DB) (session_id : Nat) (content : String) (now : Nat) :
    DB × Note :=
  let n : Note :=
    { id := db.nextNoteId, session_id := session_id, content := content
      timestamp := now }
  ({ db with notes := db.notes ++ [n], nextNoteId := db.nextNoteId + 1 }, n)

/-! ### Project resolution (cli.py and integrations/mcp_server.py)

Canonical absolute paths are lists of segments from the filesystem root;
path.resolve() canonicalization is the identity on this representation.
-/

/-- Iteration of parent directories with an explicit step budget, so
the recursion is structural; each step drops the last path segment. -/
def ancestorsAux : Nat → List String → List (List String)
  | 0, _ => []
  | _ + 1, [] => []
  | n + 1, p :: ps => (p :: ps).dropLast :: ancestorsAux n ((p :: ps).dropLast)

/-- The parent directories of a canonical path, closest first, down to
the filesystem root (the empty segment list), as iterated by
current.parents. -/
def ancestors (l : List String) : List (List String) := ancestorsAux l.length l

/-- find_project_root as defined in cli.py: exact match first, then walk
parent directories closest first; the flag records an ancestor match. -/
def find_project_root (projects : List Project) (start : List String) :
    Option (Project × Bool) :=
  match get_project_by_path projects start with
  | some pr => some (pr, false)
  | none =>
    match (ancestors start).findSome? (fun a => get_project_by_path projects a) with
    | some pr => some (pr, true)
    | none => none

/-- find_project_root as defined in integrations/mcp_server.py: the same
walk without the ancestor flag. -/
def find_project_root_mcp (projects : List Project) (start : List String) :
    Option Project :=
  match get_project_by_path projects start with
  | some pr => some pr
  | none =>
    match (ancestors start).findSome? (fun a => get_project_by_path projects a) with
    | some pr => some pr
    | none => none

/-- The resolution contract written from the spec wording, for
comparison with the source definition: canonicalize, check the exact
path then each successive parent closest first, and return the first
tracked project, flagged as an ancestor match exactly when the matched
path differs from the queried path. -/
def resolveSpec (projects : List Project) (start : List String) :
    Option (Project × Bool) :=
  (start :: ancestors start).findSome?
    (fun a => (get_project_by_path projects a).map (fun pr => (pr, decide (a ≠ start))))

/-! ### Tool handlers (integrations/mcp_server.py)

The handlers take the resolved request path and the current time as
inputs; the git capture taken on session start is an input as well
(none when the directory is not a repository or yields no context).
-/

/-- Result payload of a tool call, reduced to its success or error
message. -/
inductive ToolRes where
  | ok (msg : String)
  | err (msg : String)
deriving DecidableEq, Repr

/-- Result of the start tool. -/
inductive StartRes where
  | notInit
  | alreadyActive (startedAt : Nat)
  | started (sessionId : Nat)
deriving DecidableEq, Repr

/-- DevContextMCPServer handling of the start tool: resolve the project,
return the existing active session untouched when there is one, else
create a session and append the start capture when a git context was
collected. -/
def handle_start (db : DB) (path : List String) (gitCtx : Option GitContext)
    (now : Nat) : DB × StartRes :=
  match find_project_root_mcp db.projects path with
  | none => (db, StartRes.notInit)
  | some project =>
    match get_active_session db project.id with
    | some existing => (db, StartRes.alreadyActive existing.started_at)
    | none =>
      let res := create_session db project.id now
      let db2 :=
        match gitCtx with
        | some ctx =>
            (add_capture res.1 res.2.id "git_start" (toSummary ctx) (toJsonAst ctx) now).1
        | none => res.1
      (db2, StartRes.started res.2.id)

/-- DevContextMCPServer handling of the note tool: reject blank note
text before any lookup or write; otherwise resolve the project,
auto-start a session when none is active, and append the note. -/
def handle_note (db : DB) (path : List String) (noteArg : String) (now : Nat) :
    DB × ToolRes :=
  let note_text := pyStrip noteArg
  if note_text == "" then (db, ToolRes.err "Note text required")
  else
    match find_project_root_mcp db.projects path with
    | none => (db, ToolRes.err "Project not initialized")
    | some project =>
      let dbSession :=
        match get_active_session db project.id with
        | some s => (db, s)
        | none => create_session db project.id now
      ((add_note dbSession.1 dbSession.2.id note_text now).1,
        ToolRes.ok ("Note added: " ++ note_text))

/-! ### Lemmas about commit iteration -/

/-- On an error-free history with a since bound, the iteration loop is a
takeWhile on the authored-at-or-after-the-bound predicate. -/
theorem grcLoop_ok_since (s : Nat) (l : List Commit) :
    grcLoop (some s) (l.map Except.ok)
      = (l.takeWhile (fun c => decide (s ≤ c.date))).map commitRec := by
  induction l with
  | nil => rfl
  | cons a t ih =>
    by_cases h : a.date < s
    · have hd : decide (s ≤ a.date) = false := by simp [Nat.not_le.mpr h]
      simp [grcLoop, List.takeWhile_cons, hd, if_pos h]
    · have hd : decide (s ≤ a.date) = true := by simp [Nat.le_of_not_lt h]
      simp [grcLoop, List.takeWhile_cons, hd, if_neg h, ih]

/-- On a list whose key is non-increasing, takeWhile on a lower bound of
the key agrees with filter. -/
theorem takeWhile_eq_filter_of_nonincreasing (s : Nat) :
    ∀ l : List Commit, l.Pairwise (fun a b => b.date ≤ a.date) →
      l.takeWhile (fun c => decide (s ≤ c.date))
        = l.filter (fun c => decide (s ≤ c.date))
  | [], _ => rfl
  | a :: t, h => by
    rcases List.pairwise_cons.mp h with ⟨hle, ht⟩
    by_cases hs : s ≤ a.date
    · have hd : decide (s ≤ a.date) = true := by simp [hs]
      simp [List.takeWhile_cons, List.filter_cons, hd,
        takeWhile_eq_filter_of_nonincreasing s t ht]
    · have hd : decide (s ≤ a.date) = false := by simp [hs]
      have hnil : t.filter (fun c => decide (s ≤ c.date)) = [] := by
        apply List.filter_eq_nil_iff.mpr
        intro b hb
        have hba : b.date ≤ a.date := hle b hb
        simp only [decide_eq_true_eq]
        omega
      simp [List.takeWhile_cons, List.filter_cons, hd, hnil]

/-- The invariant claimed by the spec: at most one session per project
with ended_at unset. -/
def atMostOneActive (db : DB) : Prop :=
  ∀ project_id, (db.sessions.countP (activeFor project_id)) ≤ 1

/-- Whether a history read outcome is a successfully read commit. -/
def readOk : Except Unit Commit → Bool
  | Except.ok _ => true
  | Except.error _ => false

/-- The iteration loop only sees the error-free front of the history:
it returns the records accumulated before the first read error. -/
theorem grcLoop_takeWhile_ok (since : Option Nat) :
    ∀ l : List (Except Unit Commit),
      grcLoop since l = grcLoop since (l.takeWhile readOk)
  | [] => rfl
  | Except.error _ :: _ => by simp [grcLoop, readOk, List.takeWhile_cons]
  | Except.ok c :: t => by
    have ih := grcLoop_takeWhile_ok since t
    cases since with
    | none => simp [grcLoop, readOk, List.takeWhile_cons, ih]
    | some s =>
      by_cases h : c.date < s <;>
        simp [grcLoop, readOk, List.takeWhile_cons, h, ih]

/-- take and takeWhile commute. -/
theorem takeWhile_take_comm {α : Type} (p : α → Bool) :
    ∀ (l : List α) (n : Nat), (l.take n).takeWhile p = (l.takeWhile p).take n
  | _, 0 => by simp
  | [], _ => by simp
  | a :: t, n + 1 => by
    by_cases h : p a
    · simp [List.take_succ_cons, List.takeWhile_cons, h, takeWhile_take_comm p t n]
    · simp [List.take_succ_cons, List.takeWhile_cons, h]

/-- Claim C2: on a commit history whose authored timestamps are
non-increasing from HEAD, the commit list captured with a since bound
is, within the iteration limit, exactly the commits authored at or after
the bound, in history (newest-first) order. -/
theorem get_recent_commits_filters_since (hist : List Commit) (limit s : Nat)
    (hsort : hist.Pairwise (fun a b => b.date ≤ a.date)) :
    get_recent_commits (hist.map Except.ok) limit (some s)
      = ((hist.take limit).filter (fun c => decide (s ≤ c.date))).map commitRec := by
  unfold get_recent_commits
  rw [← List.map_take, grcLoop_ok_since,
    takeWhile_eq_filter_of_nonincreasing s _
      (List.Pairwise.sublist (List.take_sublist _ _) hsort)]

/-- A three-commit history with timestamps 30 > 20 > 10, newest first. -/
def histC2 : List Commit :=
  [{ sha := "aaaaaaaaaa", message := "c3", author := "alice", date := 30, files_changed := 1 },
   { sha := "bbbbbbbbbb", message := "c2", author := "bob", date := 20, files_changed := 2 },
   { sha := "cccccccccc", message := "c1", author := "carol", date := 10, files_changed := 3 }]

/-- Witness for claim C2 at the three-commit history with the bound at
the middle timestamp. -/
theorem get_recent_commits_filters_since_witness :
    histC2.Pairwise (fun a b => b.date ≤ a.date) ∧
    get_recent_commits (histC2.map Except.ok) 10 (some 20)
      = ((histC2.take 10).filter (fun c => decide (20 ≤ c.date))).map commitRec :=
  ⟨by decide, get_recent_commits_filters_since histC2 10 20 (by decide)⟩

/-- Claim C6 (amended): a read error during history iteration yields the
records collected before the error, not an empty list: the result is
that of the longest error-free front of the history, and the snapshot is
still produced with all other fields intact. -/
theorem get_recent_commits_error_keeps_front (reads : List (Except Unit Commit))
    (limit : Nat) (since : Option Nat) (b : String)
    (modified staged untracked : List String) :
    get_recent_commits reads limit since
      = get_recent_commits (reads.takeWhile readOk) limit since ∧
    captureCtx true b reads limit modified staged untracked since
      = some
          { branch := b
            recent_commits := get_recent_commits (reads.takeWhile readOk) limit since
            modified_files := modified
            staged_files := staged
            untracked_files := untracked
            has_uncommitted_changes := isDirtySpec modified staged untracked } := by
  have h1 : get_recent_commits reads limit since
      = get_recent_commits (reads.takeWhile readOk) limit since := by
    unfold get_recent_commits
    rw [grcLoop_takeWhile_ok since (reads.take limit), takeWhile_take_comm readOk reads limit]
  exact ⟨h1, by simp [captureCtx, ← h1]⟩

/-- A commit read successfully before a history read error. -/
def commitC6 : Commit :=
  { sha := "deadbeef12", message := "fix things", author := "alice", date := 50
    files_changed := 2 }

/-- A history whose second read raises. -/
def readsC6 : List (Except Unit Commit) :=
  [Except.ok commitC6, Except.error ()]

/-- Counterexample to claim C6 as stated: with a read error after the
first commit, the capture returns the one collected record, not an
empty commit list. -/
theorem get_recent_commits_error_not_empty :
    get_recent_commits readsC6 10 none = [commitRec commitC6] ∧
    get_recent_commits readsC6 10 none ≠ [] := by
  constructor
  · rfl
  · decide

/-! ### Lemmas about string building -/

/-- String append acts as list append on the character data. -/
theorem strData_append (s t : String) : (s ++ t).data = s.data ++ t.data := by
  obtain ⟨a⟩ := s
  obtain ⟨b⟩ := t
  rfl

/-- Appending the empty string on the right is the identity. -/
theorem strAppend_empty (s : String) : s ++ "" = s := by
  obtain ⟨a⟩ := s
  show String.mk (a ++ []) = String.mk a
  rw [List.append_nil]

/-- String append is associative. -/
theorem strAppend_assoc (a b c : String) : a ++ b ++ c = a ++ (b ++ c) := by
  obtain ⟨x⟩ := a
  obtain ⟨y⟩ := b
  obtain ⟨z⟩ := c
  show String.mk (x ++ y ++ z) = String.mk (x ++ (y ++ z))
  rw [List.append_assoc]

/-- Joining with a final element appends that element at the end. -/
theorem pyConcat_append_singleton :
    ∀ (l : List String) (x : String), pyConcat (l ++ [x]) = pyConcat l ++ x
  | [], x => by
    show pyConcat [x] = "" ++ x
    obtain ⟨d⟩ := x
    show String.mk (d ++ []) = String.mk ([] ++ d)
    simp
  | a :: t, x => by
    show a ++ pyConcat (t ++ [x]) = a ++ pyConcat t ++ x
    rw [pyConcat_append_singleton t x, strAppend_assoc]

/-- Lists agreeing on their first three elements agree on emptiness. -/
theorem take_three_isEmpty_eq {n m : List String} (h : n.take 3 = m.take 3) :
    n.isEmpty = m.isEmpty := by
  cases n <;> cases m <;> simp_all [List.take]

/-- The session header is never the git-activity marker line. -/
theorem sess_ne_marker (p : String) :
    "Session on " ++ p ≠ "\nGit activity recorded." := by
  intro h
  obtain ⟨l⟩ := p
  have hh : ("Session on " ++ String.mk l).data.head? = some 'S' := rfl
  rw [h] at hh
  exact absurd hh (by decide)

/-- The notes part is never the git-activity marker line. -/
theorem notes_ne_marker (x : String) :
    "\nNotes: " ++ x ≠ "\nGit activity recorded." := by
  intro h
  obtain ⟨l⟩ := x
  have hh : (("\nNotes: " ++ String.mk l).data).get? 1 = some 'N' := rfl
  rw [h] at hh
  exact absurd hh (by decide)

/-- Claim C3: with no reachable backend, the summary is the pure
fallback: it depends only on the project name, the first three notes and
the binary commits signal of the git text, so identical inputs (and even
inputs agreeing only on those projections) give byte-identical output. -/
theorem fallback_only_notes3_and_signal (backend : String → Option String)
    (g g2 : String) (n n2 c c2 : List String) (p : String)
    (hsig : strHasSub (lowerStr g) "commits" = strHasSub (lowerStr g2) "commits")
    (hnotes : n.take 3 = n2.take 3) :
    summarize_session false backend g n c p
      = summarize_session false backend g2 n2 c2 p := by
  have he := take_three_isEmpty_eq hnotes
  simp only [summarize_session, fallback_summary, fallbackParts, if_false,
    Bool.false_eq_true, hsig, hnotes, he]

/-- Witness for claim C3: two input tuples differing in git text case,
fourth note and captures, agreeing on the signal and first three notes,
produce the same summary. -/
theorem fallback_only_notes3_and_signal_witness :
    strHasSub (lowerStr "3 commits today") "commits"
        = strHasSub (lowerStr "see COMMITS log") "commits" ∧
    (["a", "b", "c", "d"].take 3 = ["a", "b", "c", "e"].take 3) ∧
    summarize_session false (fun _ => none) "3 commits today"
        ["a", "b", "c", "d"] ["x"] "proj"
      = summarize_session false (fun _ => none) "see COMMITS log"
          ["a", "b", "c", "e"] ["y"] "proj" :=
  ⟨by decide, by decide,
    fallback_only_notes3_and_signal (fun _ => none) "3 commits today"
      "see COMMITS log" ["a", "b", "c", "d"] ["a", "b", "c", "e"] ["x"] ["y"]
      "proj" (by decide) (by decide)⟩

/-- Claim C9: the fallback summary carries the git-activity marker line
exactly when the lowercased git text has the commits substring, and in
that case the marker ends the summary text. -/
theorem fallback_marker_iff (g : String) (n c : List String) (p : String) :
    (("\nGit activity recorded." ∈ fallbackParts g n c p)
        ↔ strHasSub (lowerStr g) "commits" = true) ∧
    (strHasSub (lowerStr g) "commits" = true →
      ∃ t, fallback_summary g n c p = t ++ "\nGit activity recorded.") := by
  constructor
  · constructor
    · intro hmem
      by_contra hsig
      rw [Bool.not_eq_true] at hsig
      simp only [fallbackParts, hsig, Bool.false_eq_true, if_false,
        List.append_nil, List.mem_append, List.mem_singleton] at hmem
      rcases hmem with hmem | hmem
      · exact sess_ne_marker p hmem.symm
      · by_cases hn : n.isEmpty
        · rw [if_pos hn] at hmem
          exact absurd hmem (List.not_mem_nil _)
        · rw [if_neg hn, List.mem_singleton] at hmem
          exact notes_ne_marker _ hmem.symm
    · intro hsig
      simp [fallbackParts, hsig]
  · intro hsig
    refine ⟨pyConcat (["Session on " ++ p]
      ++ (if n.isEmpty then [] else ["\nNotes: " ++ joinSep "; " (n.take 3)])), ?_⟩
    simp only [fallback_summary, fallbackParts, hsig, if_true]
    rw [List.append_assoc, ← List.append_assoc]
    exact pyConcat_append_singleton _ _

/-- Witness for claim C9: git text naming a file commits.txt, with no
commit section at all, triggers the marker, which ends the summary. -/
theorem fallback_marker_iff_witness :
    ("\nGit activity recorded."
        ∈ fallbackParts "Modified files (1):\n  - commits.txt" ["n1"] [] "proj") ∧
    ∃ t, fallback_summary "Modified files (1):\n  - commits.txt" ["n1"] [] "proj"
        = t ++ "\nGit activity recorded." :=
  ⟨(fallback_marker_iff "Modified files (1):\n  - commits.txt" ["n1"] [] "proj").1.mpr
      (by decide),
    (fallback_marker_iff "Modified files (1):\n  - commits.txt" ["n1"] [] "proj").2
      (by decide)⟩

/-- Claim C10: the human-readable summary is independent of the
untracked files (no path and no count from them can reach the text),
while the structured JSON form preserves them under the
untracked_files key, and untracked files alone make the captured
snapshot report uncommitted changes. -/
theorem summary_ignores_untracked (g : GitContext) (u u2 : List String)
    (modified staged untracked : List String)
    (hu : untracked ≠ []) :
    toSummary { g with untracked_files := u }
        = toSummary { g with untracked_files := u2 } ∧
    jsonLookup (toJsonAst g) "untracked_files"
        = some (JVal.jarr (g.untracked_files.map JVal.jstr)) ∧
    isDirtySpec modified staged untracked = true ∧
    (∀ b reads limit since,
      (captureCtx true b reads limit modified staged untracked since).map
          GitContext.has_uncommitted_changes = some true) := by
  have hu2 : untracked.isEmpty = false := by
    cases untracked with
    | nil => exact absurd rfl hu
    | cons a t => rfl
  have hdirty : isDirtySpec modified staged untracked = true := by
    simp [isDirtySpec, hu2]
  exact ⟨rfl, rfl, hdirty, fun b reads limit since => by
    simp [captureCtx, hdirty]⟩

/-- A snapshot used to instantiate claim C10. -/
def gC10 : GitContext :=
  { branch := "main", recent_commits := [], modified_files := ["m.py"]
    staged_files := [], untracked_files := ["z"], has_uncommitted_changes := true }

/-- Witness for claim C10 at a concrete snapshot with untracked file
lists of different lengths and contents. -/
theorem summary_ignores_untracked_witness :
    toSummary { gC10 with untracked_files := ["a"] }
        = toSummary { gC10 with untracked_files := ["b", "c"] } ∧
    jsonLookup (toJsonAst gC10) "untracked_files"
        = some (JVal.jarr (gC10.untracked_files.map JVal.jstr)) ∧
    isDirtySpec [] [] ["w.txt"] = true ∧
    (captureCtx true "main" [] 10 [] [] ["w.txt"] none).map
        GitContext.has_uncommitted_changes = some true :=
  ⟨(summary_ignores_untracked gC10 ["a"] ["b", "c"] [] [] ["w.txt"] (by decide)).1,
    (summary_ignores_untracked gC10 ["a"] ["b", "c"] [] [] ["w.txt"] (by decide)).2.1,
    (summary_ignores_untracked gC10 ["a"] ["b", "c"] [] [] ["w.txt"] (by decide)).2.2.1,
    (summary_ignores_untracked gC10 ["a"] ["b", "c"] [] [] ["w.txt"]
        (by decide)).2.2.2 "main" [] 10 none⟩

/-! ### Lemmas about project resolution -/

/-- Every list produced by the budgeted parent iteration is strictly
shorter than its input. -/
theorem mem_ancestorsAux_length_lt :
    ∀ (n : Nat) (l a : List String), a ∈ ancestorsAux n l → a.length < l.length
  | 0, l, a, h => by simp [ancestorsAux] at h
  | n + 1, [], a, h => by simp [ancestorsAux] at h
  | n + 1, p :: ps, a, h => by
    simp only [ancestorsAux, List.mem_cons] at h
    rcases h with h | h
    · subst h
      simp [List.length_dropLast]
    · have hlt := mem_ancestorsAux_length_lt n ((p :: ps).dropLast) a h
      have hd : ((p :: ps).dropLast).length < (p :: ps).length := by
        simp [List.length_dropLast]
      omega

/-- Every ancestor of a path is a strictly shorter segment list. -/
theorem mem_ancestors_length_lt (l a : List String) (h : a ∈ ancestors l) :
    a.length < l.length :=
  mem_ancestorsAux_length_lt l.length l a h

/-- A path lookup only returns a project stored at that path. -/
theorem get_project_by_path_path {projects : List Project} {path : List String}
    {pr : Project} (h : get_project_by_path projects path = some pr) :
    pr.path = path := by
  have := List.find?_some h
  simpa using this

/-- Walking a list of candidate paths that all differ from the start
path, the flagged walk is the plain walk with the ancestor flag set. -/
theorem findSome_flag_true (projects : List Project) (start : List String) :
    ∀ ps : List (List String), (∀ a ∈ ps, a ≠ start) →
      ps.findSome?
          (fun a => (get_project_by_path projects a).map
            (fun pr => (pr, decide (a ≠ start))))
        = (ps.findSome? (fun a => get_project_by_path projects a)).map
            (fun pr => (pr, true))
  | [], _ => rfl
  | a :: t, h => by
    have ha : a ≠ start := h a (List.mem_cons_self a t)
    have hd : decide (a ≠ start) = true := by simp [ha]
    cases hlook : get_project_by_path projects a with
    | none =>
      have ih := findSome_flag_true projects start t
        (fun b hb => h b (List.mem_cons_of_mem a hb))
      simp only [List.findSome?_cons, hlook, Option.map_none']
      exact ih
    | some pr => simp [List.findSome?_cons, hlook, ha]

/-- Claim C4: project resolution equals the spec walk (exact match
first, then closest ancestor first, flag set exactly on strict-ancestor
matches), the flag is true exactly when the queried path differs from
the returned project path, resolution returns nothing exactly when
neither the path nor any ancestor is tracked, and the tool-surface
variant is the same resolution without the flag. -/
theorem find_project_root_resolves (projects : List Project) (start : List String) :
    find_project_root projects start = resolveSpec projects start ∧
    (∀ pr flag, find_project_root projects start = some (pr, flag) →
      (flag = true ↔ pr.path ≠ start)) ∧
    (find_project_root projects start = none ↔
      ∀ a ∈ start :: ancestors start, get_project_by_path projects a = none) ∧
    find_project_root_mcp projects start
      = (find_project_root projects start).map Prod.fst := by
  have hanc : ∀ a ∈ ancestors start, a ≠ start := by
    intro a ha he
    have := mem_ancestors_length_lt start a ha
    rw [he] at this
    exact Nat.lt_irrefl _ this
  refine ⟨?_, ?_, ?_, ?_⟩
  · unfold find_project_root resolveSpec
    cases hex : get_project_by_path projects start with
    | some pr => simp [List.findSome?_cons, hex]
    | none =>
      rw [List.findSome?_cons]
      simp only [hex, Option.map_none']
      rw [findSome_flag_true projects start _ hanc]
      cases hw : (ancestors start).findSome? (fun a => get_project_by_path projects a) <;>
        simp
  · intro pr flag h
    unfold find_project_root at h
    cases hex : get_project_by_path projects start with
    | some pr0 =>
      rw [hex] at h
      obtain ⟨hpr, hflag⟩ := Prod.mk.injEq .. ▸ Option.some.injEq .. ▸ h
      have hpath : pr0.path = start := get_project_by_path_path hex
      subst hpr
      simp [← hflag, hpath]
    | none =>
      rw [hex] at h
      cases hw : (ancestors start).findSome? (fun a => get_project_by_path projects a) with
      | none => rw [hw] at h; exact absurd h (by simp)
      | some pr1 =>
        rw [hw] at h
        obtain ⟨a, hmem, hfa⟩ := List.exists_of_findSome?_eq_some hw
        have hpath : pr1.path = a := get_project_by_path_path hfa
        have hne : pr1.path ≠ start := hpath ▸ hanc a hmem
        obtain ⟨hpr, hflag⟩ := Prod.mk.injEq .. ▸ Option.some.injEq .. ▸ h
        subst hpr
        simp [← hflag, hne]
  · unfold find_project_root
    cases hex : get_project_by_path projects start with
    | some pr => simp [hex]
    | none =>
      cases hw : (ancestors start).findSome? (fun a => get_project_by_path projects a) with
      | some pr1 =>
        simp only [hw]
        constructor
        · intro h; exact absurd h (by simp)
        · intro h
          obtain ⟨a, hmem, hfa⟩ := List.exists_of_findSome?_eq_some hw
          exact absurd hfa (by simp [h a (List.mem_cons_of_mem start hmem)])
      | none =>
        simp only [hw]
        rw [List.findSome?_eq_none_iff] at hw
        constructor
        · intro _ a ha
          rcases List.mem_cons.mp ha with h | h
          · rw [h]; exact hex
          · exact hw a h
        · intro _; trivial
  · unfold find_project_root find_project_root_mcp
    cases hex : get_project_by_path projects start with
    | some pr => simp [hex]
    | none =>
      cases hw : (ancestors start).findSome? (fun a => get_project_by_path projects a) <;>
        simp [hw]

/-- A tracked project rooted two levels below the filesystem root. -/
def prC4 : Project :=
  { id := 1, name := "root", path := ["home", "dev"], created_at := 0, last_active := 0 }

/-- A one-project store for instantiating claim C4. -/
def projsC4 : List Project := [prC4]

/-- Witness for claim C4: a query from a subdirectory of the tracked
root resolves to the project with the ancestor flag set, agrees with
the spec walk, and the tool-surface variant returns the same project. -/
theorem find_project_root_resolves_witness :
    (find_project_root projsC4 ["home", "dev", "sub"]
        = resolveSpec projsC4 ["home", "dev", "sub"]) ∧
    ((true = true) ↔ prC4.path ≠ ["home", "dev", "sub"]) ∧
    find_project_root projsC4 ["var"] = none ∧
    find_project_root_mcp projsC4 ["home", "dev", "sub"]
        = (find_project_root projsC4 ["home", "dev", "sub"]).map Prod.fst :=
  ⟨(find_project_root_resolves projsC4 ["home", "dev", "sub"]).1,
    (find_project_root_resolves projsC4 ["home", "dev", "sub"]).2.1 prC4 true (by decide),
    (find_project_root_resolves projsC4 ["var"]).2.2.1.mpr (by decide),
    (find_project_root_resolves projsC4 ["home", "dev", "sub"]).2.2.2⟩

/-! ### Lemmas about the note handler -/

/-- Stripping a string of whitespace characters only leaves the empty
string. -/
theorem pyStrip_all_space {s : String} (h : s.data.all isPySpace = true) :
    pyStrip s = "" := by
  unfold pyStrip
  have h1 : s.data.dropWhile isPySpace = [] :=
    List.dropWhile_eq_nil_iff.mpr (fun x hx => by
      exact List.all_eq_true.mp h x hx)
  rw [h1]
  rfl

/-- Claim C8: the note tool rejects note text that is empty or all
whitespace with the required-text error, before any lookup or write:
the store is returned unchanged, so no session is auto-started and no
note row is inserted. -/
theorem handle_note_blank (db : DB) (path : List String) (noteArg : String)
    (now : Nat) (h : noteArg.data.all isPySpace = true) :
    handle_note db path noteArg now = (db, ToolRes.err "Note text required") := by
  unfold handle_note
  rw [pyStrip_all_space h]
  simp

/-- An empty store. -/
def dbEmpty : DB :=
  { projects := [], sessions := [], captures := [], notes := []
    nextSessionId := 1, nextCaptureId := 1, nextNoteId := 1 }

/-- Witness for claim C8 at a whitespace-only note argument. -/
theorem handle_note_blank_witness :
    handle_note dbEmpty ["home"] " \t " 0 = (dbEmpty, ToolRes.err "Note text required") :=
  handle_note_blank dbEmpty ["home"] " \t " 0 (by decide)

/-- Claim C7 (amended): end_session unconditionally updates the session
with the given id, setting its ended_at to the current time and its
summary to the supplied value even when the session had already ended;
sessions with other ids are unchanged and no row is added or removed. -/
theorem end_session_overwrites (db : DB) (sid : Nat) (sum : Option String)
    (now : Nat) :
    (∀ x ∈ (end_session db sid sum now).sessions, x.id ≠ sid → x ∈ db.sessions) ∧
    (∀ x ∈ (end_session db sid sum now).sessions, x.id = sid →
      x.ended_at = some now ∧ x.summary = sum) ∧
    (end_session db sid sum now).sessions.length = db.sessions.length := by
  refine ⟨?_, ?_, by simp [end_session]⟩
  · intro x hx hne
    simp only [end_session, List.mem_map] at hx
    obtain ⟨y, hy, hxy⟩ := hx
    by_cases hid : y.id == sid
    · have hyid : y.id = sid := beq_iff_eq.mp hid
      rw [if_pos hid] at hxy
      exact absurd (by rw [← hxy]; exact hyid) hne
    · rw [if_neg hid] at hxy
      exact hxy ▸ hy
  · intro x hx heq
    simp only [end_session, List.mem_map] at hx
    obtain ⟨y, hy, hxy⟩ := hx
    by_cases hid : y.id == sid
    · rw [if_pos hid] at hxy
      rw [← hxy]
      exact ⟨rfl, rfl⟩
    · rw [if_neg hid] at hxy
      have : y.id = sid := by rw [← heq, ← hxy]
      exact absurd (beq_iff_eq.mpr this) hid

/-- A store holding a single already-ended session. -/
def dbC7 : DB :=
  { projects := [], captures := [], notes := []
    sessions := [{ id := 1, project_id := 1, started_at := 0
                   ended_at := some 5, summary := some "old" }]
    nextSessionId := 2, nextCaptureId := 1, nextNoteId := 1 }

/-- Counterexample to claim C7 as stated: ending the already-ended
session changes it, overwriting both ended_at and summary. -/
theorem end_session_not_noop :
    (end_session dbC7 1 (some "new") 9).sessions ≠ dbC7.sessions ∧
    (end_session dbC7 1 (some "new") 9).sessions
      = [{ id := 1, project_id := 1, started_at := 0
           ended_at := some 9, summary := some "new" }] := by
  constructor
  · decide
  · rfl

/-- Witness for the amended claim C7 at the single-session store: the
updated row has the new end time and summary. -/
theorem end_session_overwrites_witness :
    ({ id := 1, project_id := 1, started_at := 0, ended_at := some 9
       summary := some "new" } : Session).ended_at = some 9 ∧
    ({ id := 1, project_id := 1, started_at := 0, ended_at := some 9
       summary := some "new" } : Session).summary = some "new" :=
  (end_session_overwrites dbC7 1 (some "new") 9).2.1
    { id := 1, project_id := 1, started_at := 0, ended_at := some 9
      summary := some "new" } (by decide) rfl

/-! ### Lemmas about the active-session invariant -/

/-- Creating a session adds exactly one row, active for its project. -/
theorem create_session_countP (db : DB) (pid now q : Nat) :
    ((create_session db pid now).1.sessions.countP (activeFor q))
      = db.sessions.countP (activeFor q) + (if pid == q then 1 else 0) := by
  simp [create_session, activeFor, List.countP_append, List.countP_cons]

/-- When no session of the project is active, the active count of the
project is zero. -/
theorem get_active_none_countP {db : DB} {pid : Nat}
    (h : get_active_session db pid = none) :
    db.sessions.countP (activeFor pid) = 0 := by
  rw [List.countP_eq_zero]
  intro a ha
  exact List.find?_eq_none.mp h a ha

/-- Creating a session when none is active preserves the at-most-one
invariant. -/
theorem create_after_none_le {db : DB} {pid now : Nat}
    (hact : get_active_session db pid = none) (hinv : atMostOneActive db) :
    atMostOneActive (create_session db pid now).1 := by
  intro q
  rw [create_session_countP]
  by_cases hpq : pid == q
  · have hq : q = pid := (beq_iff_eq.mp hpq).symm
    subst hq
    rw [get_active_none_countP hact]
    simp [hpq]
  · simp only [hpq, if_false, Bool.false_eq_true, Nat.add_zero]
    exact hinv q

/-- Ending a session never increases any active count. -/
theorem end_session_countP_le (db : DB) (sid : Nat) (sum : Option String)
    (now q : Nat) :
    (end_session db sid sum now).sessions.countP (activeFor q)
      ≤ db.sessions.countP (activeFor q) := by
  unfold end_session
  rw [List.countP_map]
  apply List.countP_mono_left
  intro s _ hps
  by_cases hid : s.id == sid
  · simp [Function.comp, hid, activeFor] at hps
  · simpa [Function.comp, hid] using hps

/-- Claim C1 (amended): the raw store insert performs no check, but the
application-level operations preserve the at-most-one-active invariant:
the start tool returns the existing active session untouched (the
second start observes the first as active), and start, session end and
the note tool each map stores satisfying the invariant to stores
satisfying it. -/
theorem active_invariant_application_level (db : DB) (path : List String)
    (gitCtx : Option GitContext) (now sid : Nat) (sum : Option String)
    (noteArg : String) (pr : Project) (s : Session)
    (hinv : atMostOneActive db) :
    atMostOneActive (handle_start db path gitCtx now).1 ∧
    atMostOneActive (end_session db sid sum now) ∧
    atMostOneActive (handle_note db path noteArg now).1 ∧
    (find_project_root_mcp db.projects path = some pr →
      get_active_session db pr.id = some s →
      handle_start db path gitCtx now = (db, StartRes.alreadyActive s.started_at)) := by
  refine ⟨?_, ?_, ?_, ?_⟩
  · unfold handle_start
    cases hfind : find_project_root_mcp db.projects path with
    | none => dsimp only; exact hinv
    | some project =>
      dsimp only
      cases hact : get_active_session db project.id with
      | some existing => dsimp only; exact hinv
      | none =>
        dsimp only
        have hcre := @create_after_none_le db project.id now hact hinv
        cases gitCtx with
        | none => dsimp only; exact hcre
        | some ctx =>
          dsimp only [add_capture]
          intro q
          exact hcre q
  · intro q
    exact Nat.le_trans (end_session_countP_le db sid sum now q) (hinv q)
  · unfold handle_note
    by_cases hblank : pyStrip noteArg == ""
    · simp only [hblank, if_true]
      exact hinv
    · simp only [hblank, if_false, Bool.false_eq_true]
      cases hfind : find_project_root_mcp db.projects path with
      | none => dsimp only; exact hinv
      | some project =>
        dsimp only
        cases hact : get_active_session db project.id with
        | some existing =>
          dsimp only [add_note]
          intro q
          exact hinv q
        | none =>
          dsimp only [add_note]
          intro q
          exact create_after_none_le hact hinv q
  · intro hfind hact
    unfold handle_start
    rw [hfind]
    dsimp only
    rw [hact]

/-- A one-project store with no sessions. -/
def dbC1 : DB :=
  { projects := [{ id := 1, name := "p", path := ["home", "p"], created_at := 0
                   last_active := 0 }]
    sessions := [], captures := [], notes := []
    nextSessionId := 1, nextCaptureId := 1, nextNoteId := 1 }

/-- Counterexample to claim C1 as stated: at the storage layer, two
create_session calls with no intervening end_session yield two sessions
of the project with ended_at unset, violating the claimed invariant. -/
theorem create_session_no_check :
    ((create_session (create_session dbC1 1 5).1 1 6).1.sessions.countP (activeFor 1)) = 2 ∧
    ¬ atMostOneActive (create_session (create_session dbC1 1 5).1 1 6).1 := by
  have h2 : ((create_session (create_session dbC1 1 5).1 1 6).1.sessions.countP
      (activeFor 1)) = 2 := by decide
  refine ⟨h2, fun h => ?_⟩
  have := h 1
  omega

/-- A one-project store with one active session. -/
def dbC1W : DB :=
  { projects := [{ id := 1, name := "p", path := ["home", "p"], created_at := 0
                   last_active := 0 }]
    sessions := [{ id := 7, project_id := 1, started_at := 3, ended_at := none
                   summary := none }]
    captures := [], notes := []
    nextSessionId := 8, nextCaptureId := 1, nextNoteId := 1 }

/-- Witness for the amended claim C1 at a store with one active
session: a second start is the identity on the store and reports the
session as already active, and all three operations preserve the
invariant. -/
theorem active_invariant_application_level_witness :
    atMostOneActive (handle_start dbC1W ["home", "p"] none 9).1 ∧
    atMostOneActive (end_session dbC1W 7 none 9) ∧
    atMostOneActive (handle_note dbC1W ["home", "p"] "hi" 9).1 ∧
    handle_start dbC1W ["home", "p"] none 9 = (dbC1W, StartRes.alreadyActive 3) :=
  have hinv : atMostOneActive dbC1W :=
    fun _ => Nat.le_trans (List.countP_le_length _) (by decide)
  have hall := active_invariant_application_level dbC1W ["home", "p"] none 9 7
    none "hi"
    { id := 1, name := "p", path := ["home", "p"], created_at := 0, last_active := 0 }
    { id := 7, project_id := 1, started_at := 3, ended_at := none, summary := none }
    hinv
  ⟨hall.1, hall.2.1, hall.2.2.1, hall.2.2.2 (by decide) (by decide)⟩

/-! ### Summary truncation -/

/-- Claim C5 (amended): each displayed section header of the summary
carries the full count of its list (commits, modified, staged), the
modified list gets an explicit and-N-more marker exactly when more than
10 entries exist, and the whole summary is bounded: at most 26 lines
(1 branch line, 1+5 commit lines, 1+10+1 modified lines, 1+5 staged
lines, 1 warning line). -/
theorem to_summary_sections (g : GitContext) :
    (g.recent_commits ≠ [] →
      ("\nRecent commits (" ++ toString g.recent_commits.length ++ "):")
        ∈ toSummaryLines g) ∧
    (g.modified_files ≠ [] →
      ("\nModified files (" ++ toString g.modified_files.length ++ "):")
        ∈ toSummaryLines g) ∧
    (g.modified_files.length > 10 →
      ("  ... and " ++ toString (g.modified_files.length - 10) ++ " more")
        ∈ toSummaryLines g) ∧
    (g.staged_files ≠ [] →
      ("\nStaged files (" ++ toString g.staged_files.length ++ "):")
        ∈ toSummaryLines g) ∧
    (toSummaryLines g).length ≤ 26 := by
  refine ⟨?_, ?_, ?_, ?_, ?_⟩
  · intro h
    have hne : g.recent_commits.isEmpty = false := by
      cases hc : g.recent_commits with
      | nil => exact absurd hc h
      | cons a t => rfl
    simp [toSummaryLines, hne, List.mem_append]
  · intro h
    have hne : g.modified_files.isEmpty = false := by
      cases hc : g.modified_files with
      | nil => exact absurd hc h
      | cons a t => rfl
    simp [toSummaryLines, hne, List.mem_append]
  · intro h
    have hne : g.modified_files.isEmpty = false := by
      cases hc : g.modified_files with
      | nil => rw [hc] at h; simp at h
      | cons a t => rfl
    simp [toSummaryLines, hne, h, List.mem_append]
  · intro h
    have hne : g.staged_files.isEmpty = false := by
      cases hc : g.staged_files with
      | nil => exact absurd hc h
      | cons a t => rfl
    simp [toSummaryLines, hne, List.mem_append]
  · simp only [toSummaryLines, List.length_append]
    split_ifs <;>
      simp [List.length_take] <;> omega

/-- A snapshot with six commits and six staged files. -/
def gC5 : GitContext :=
  { branch := "main"
    recent_commits :=
      [{ sha := "a1", message := "m1", author := "u", date := 6, files_changed := 1 },
       { sha := "a2", message := "m2", author := "u", date := 5, files_changed := 1 },
       { sha := "a3", message := "m3", author := "u", date := 4, files_changed := 1 },
       { sha := "a4", message := "m4", author := "u", date := 3, files_changed := 1 },
       { sha := "a5", message := "m5", author := "u", date := 2, files_changed := 1 },
       { sha := "a6", message := "m6", author := "u", date := 1, files_changed := 1 }]
    modified_files := []
    staged_files := ["f1", "f2", "f3", "f4", "f5", "f6"]
    untracked_files := []
    has_uncommitted_changes := true }

/-- Counterexample to claim C5 as stated: with six commits and six
staged files, the sixth commit and sixth staged file are cut from the
summary yet no and-N-more marker appears anywhere in it. -/
theorem to_summary_truncates_without_marker :
    strHasSub (toSummary gC5) "m5" = true ∧
    strHasSub (toSummary gC5) "m6" = false ∧
    strHasSub (toSummary gC5) "f5" = true ∧
    strHasSub (toSummary gC5) "f6" = false ∧
    strHasSub (toSummary gC5) "more" = false := by
  refine ⟨?_, ?_, ?_, ?_, ?_⟩ <;> decide

/-- A snapshot with one commit, eleven modified files and one staged
file. -/
def gC5W : GitContext :=
  { branch := "b"
    recent_commits :=
      [{ sha := "s", message := "m", author := "u", date := 1, files_changed := 1 }]
    modified_files :=
      ["a1", "a2", "a3", "a4", "a5", "a6", "a7", "a8", "a9", "a10", "a11"]
    staged_files := ["s1"]
    untracked_files := []
    has_uncommitted_changes := true }

/-- Witness for the amended claim C5 at the eleven-modified-file
snapshot: all section headers with counts and the and-1-more marker
are present, within the line bound. -/
theorem to_summary_sections_witness :
    (("\nRecent commits (" ++ toString gC5W.recent_commits.length ++ "):")
        ∈ toSummaryLines gC5W) ∧
    (("\nModified files (" ++ toString gC5W.modified_files.length ++ "):")
        ∈ toSummaryLines gC5W) ∧
    (("  ... and " ++ toString (gC5W.modified_files.length - 10) ++ " more")
        ∈ toSummaryLines gC5W) ∧
    (("\nStaged files (" ++ toString gC5W.staged_files.length ++ "):")
        ∈ toSummaryLines gC5W) ∧
    (toSummaryLines gC5W).length ≤ 26 :=
  ⟨(to_summary_sections gC5W).1 (by decide),
    (to_summary_sections gC5W).2.1 (by decide),
    (to_summary_sections gC5W).2.2.1 (by decide),
    (to_summary_sections gC5W).2.2.2.1 (by decide),
    (to_summary_sections gC5W).2.2.2.2⟩

end DevContext
